import Mathlib

/-!
Verification of the streetsweep trash-detection post-processing core:
geometry utilities (IoU, rotation coordinate transforms), the per-class
filter policy, the confidence-ordered greedy deduplication engine, the
rotation-invariant detection wrapper (`YOLOModel.detect_trash`) and the
multi-strategy fusion detector's final edge-proximity filter.

The Python source is embedded shallowly: detection records become a Lean
structure, float arithmetic becomes exact rational arithmetic, the base
neural model becomes an oracle parameter (`none` models a raised
exception, `some raws` a successful inference call), and Python's
in-place stable sort becomes a stable insertion sort.
-/

namespace StreetSweep

/-- A detection record, mirroring the Python dicts built by the detectors:
keys `class`, `confidence`, `bbox`, `center`, `rotation` and (for the
advanced detector) `source`.  Detectors that do not set a `source` key use
the empty string. -/
structure Det where
  className  : String
  confidence : ℚ
  bbox       : ℤ × ℤ × ℤ × ℤ
  center     : ℤ × ℤ
  rotation   : ℤ
  source     : String
deriving DecidableEq, Repr

/-- A raw output of the black-box base model for one box: `xyxy`
coordinates, confidence, and the class name the model's `names` table
assigns to the predicted class id. -/
structure RawBox where
  x1 : ℚ
  y1 : ℚ
  x2 : ℚ
  y2 : ℚ
  conf : ℚ
  className : String
deriving DecidableEq, Repr

/-- Embedding of `calculate_iou` from `trash_detector/utils/image_utils.py`:
intersection-over-union of two axis-aligned boxes, `0` when the
intersection is degenerate or the union is non-positive. -/
def calculate_iou (bbox1 bbox2 : ℤ × ℤ × ℤ × ℤ) : ℚ :=
  let (x1_1, y1_1, x2_1, y2_1) := bbox1
  let (x1_2, y1_2, x2_2, y2_2) := bbox2
  let x1_i := max x1_1 x1_2
  let y1_i := max y1_1 y1_2
  let x2_i := min x2_1 x2_2
  let y2_i := min y2_1 y2_2
  if x2_i ≤ x1_i ∨ y2_i ≤ y1_i then 0
  else
    let intersection : ℚ := ((x2_i - x1_i) * (y2_i - y1_i) : ℤ)
    let area1 : ℚ := ((x2_1 - x1_1) * (y2_1 - y1_1) : ℤ)
    let area2 : ℚ := ((x2_2 - x1_2) * (y2_2 - y1_2) : ℤ)
    let union := area1 + area2 - intersection
    if union > 0 then intersection / union else 0

/-- One step of a stable insertion sort by confidence descending: `d` is
placed before the first element whose confidence does not exceed `d`'s,
so among equal confidences the earlier-inserted element stays first. -/
def insertDesc (d : Det) : List Det → List Det
  | [] => [d]
  | e :: es => if e.confidence > d.confidence then e :: insertDesc d es else d :: e :: es

/-- The stable descending-by-confidence sort performed by
`detections.sort(key=lambda x: x['confidence'], reverse=True)`.  Python's
sort is stable; a stable descending arrangement is unique, so any stable
implementation gives the same list. -/
def sortByConfDesc : List Det → List Det
  | [] => []
  | d :: ds => insertDesc d (sortByConfDesc ds)

/-- The duplicate test of the inner loop of `remove_duplicate_detections`:
some already-accepted detection has IoU strictly above the threshold and
the same class. -/
def isDuplicate (θ : ℚ) (filtered : List Det) (d : Det) : Bool :=
  filtered.any fun e =>
    decide (calculate_iou d.bbox e.bbox > θ) && (d.className == e.className)

/-- One iteration of the greedy acceptance loop: keep the accepted list if
the candidate is a duplicate, else append the candidate at the end. -/
def dedupStep (θ : ℚ) (filtered : List Det) (d : Det) : List Det :=
  if isDuplicate θ filtered d then filtered else filtered ++ [d]

/-- Embedding of `remove_duplicate_detections` from
`trash_detector/utils/image_utils.py`: lists of length at most one are
returned unchanged, otherwise the list is stably sorted by confidence
descending and filtered greedily.  The Python default `iou_threshold` is
`0.5`. -/
def remove_duplicate_detections (detections : List Det) (θ : ℚ) : List Det :=
  if detections.length ≤ 1 then detections
  else (sortByConfDesc detections).foldl (dedupStep θ) []

/-- Embedding of `adjust_rotated_coords` from `trash_detector/utils/image_utils.py`:
maps box coordinates from the frame rotated by `angle` back to the
original frame of width `orig_width` and height `orig_height`.  Any angle
other than 90, 180 or 270 is the identity. -/
def adjust_rotated_coords (x1 y1 x2 y2 : ℚ) (angle : ℤ) (orig_width orig_height : ℕ) :
    ℚ × ℚ × ℚ × ℚ :=
  if angle = 90 then
    (y1, (orig_height : ℚ) - x2, y2, (orig_height : ℚ) - x1)
  else if angle = 180 then
    ((orig_width : ℚ) - x2, (orig_height : ℚ) - y2,
     (orig_width : ℚ) - x1, (orig_height : ℚ) - y1)
  else if angle = 270 then
    ((orig_width : ℚ) - y2, x1, (orig_width : ℚ) - y1, x2)
  else
    (x1, y1, x2, y2)

/-- Python's `int()` applied to a float: truncation toward zero. -/
def truncQ (q : ℚ) : ℤ :=
  if 0 ≤ q then ⌊q⌋ else ⌈q⌉

/-- Python's `//` floor division by 2 followed by `int()`: the floor is
already integral, so the composite is the floor of the half. -/
def halfFloor (q : ℚ) : ℤ :=
  ⌊q / 2⌋

/-- Embedding of `TRASH_CLASSES` from `trash_detector/config.py`. -/
def TRASH_CLASSES : List String :=
  ["bottle", "cup", "bowl", "banana", "apple", "sandwich", "orange",
   "broccoli", "carrot", "hot dog", "pizza", "donut", "cake", "book",
   "frisbee", "sports ball", "tennis racket", "skateboard", "surfboard",
   "wine glass", "fork", "knife", "spoon", "tie", "handbag", "suitcase",
   "umbrella", "backpack", "chair", "couch", "potted plant", "bed",
   "dining table", "toilet"]

/-- One entry of the `DETECTION_FILTERS` policy table: relative-area
bounds and a confidence floor. -/
structure FilterParams where
  min_area : ℚ
  max_area : ℚ
  min_confidence : ℚ
deriving DecidableEq, Repr

/-- Embedding of `DETECTION_FILTERS` from `trash_detector/config.py`, as an
association list keyed by class name (the Python dict preserves these
literal entries; lookup order is irrelevant because keys are distinct). -/
def DETECTION_FILTERS : List (String × FilterParams) :=
  [("bottle", ⟨0.0005, 0.2, 0.3⟩),
   ("cup", ⟨0.001, 0.15, 0.3⟩),
   ("bowl", ⟨0.001, 0.15, 0.3⟩),
   ("wine glass", ⟨0.001, 0.15, 0.3⟩),
   ("banana", ⟨0.0005, 0.1, 0.4⟩),
   ("apple", ⟨0.0005, 0.1, 0.4⟩),
   ("orange", ⟨0.0005, 0.1, 0.4⟩),
   ("broccoli", ⟨0.0005, 0.1, 0.4⟩),
   ("carrot", ⟨0.0005, 0.1, 0.4⟩),
   ("sandwich", ⟨0.001, 0.1, 0.4⟩),
   ("hot dog", ⟨0.001, 0.1, 0.4⟩),
   ("pizza", ⟨0.001, 0.1, 0.4⟩),
   ("donut", ⟨0.001, 0.1, 0.4⟩),
   ("cake", ⟨0.001, 0.1, 0.4⟩),
   ("book", ⟨0.002, 0.2, 0.5⟩),
   ("frisbee", ⟨0.002, 0.2, 0.4⟩),
   ("sports ball", ⟨0.002, 0.2, 0.4⟩),
   ("tennis racket", ⟨0.002, 0.2, 0.4⟩),
   ("skateboard", ⟨0.002, 0.2, 0.4⟩),
   ("surfboard", ⟨0.002, 0.2, 0.4⟩),
   ("fork", ⟨0.0005, 0.05, 0.4⟩),
   ("knife", ⟨0.0005, 0.05, 0.4⟩),
   ("spoon", ⟨0.0005, 0.05, 0.4⟩),
   ("tie", ⟨0.002, 0.15, 0.5⟩),
   ("handbag", ⟨0.002, 0.15, 0.5⟩),
   ("suitcase", ⟨0.002, 0.15, 0.5⟩),
   ("umbrella", ⟨0.002, 0.15, 0.5⟩),
   ("backpack", ⟨0.002, 0.15, 0.5⟩),
   ("chair", ⟨0.01, 0.5, 0.6⟩),
   ("couch", ⟨0.01, 0.5, 0.6⟩),
   ("potted plant", ⟨0.01, 0.5, 0.6⟩),
   ("bed", ⟨0.01, 0.5, 0.6⟩),
   ("dining table", ⟨0.01, 0.5, 0.6⟩),
   ("toilet", ⟨0.01, 0.5, 0.6⟩),
   ("default", ⟨0.0005, 0.2, 0.3⟩)]

/-- Embedding of `DETECTION_FILTERS.get(class_name, DETECTION_FILTERS['default'])`:
the entry for the class, or the table's own `default` entry when the
class is absent.  The `default` key is present in the table, so the
final `getD` fallback is never reached. -/
def filtersGet (class_name : String) : FilterParams :=
  (DETECTION_FILTERS.lookup class_name).getD
    ((DETECTION_FILTERS.lookup "default").getD ⟨0, 0, 0⟩)

/-- Embedding of `is_likely_trash` from `trash_detector/utils/detection_filters.py`.
The frame enters only through its pixel dimensions
(`frame.shape[0] = frameH`, `frame.shape[1] = frameW`). -/
def is_likely_trash (class_name : String) (confidence x1 y1 x2 y2 : ℚ)
    (frameH frameW : ℕ) : Bool :=
  let width := x2 - x1
  let height := y2 - y1
  let area := width * height
  let frame_area : ℚ := (frameH : ℚ) * (frameW : ℚ)
  let relative_area := area / frame_area
  let p := filtersGet class_name
  decide (p.min_area < relative_area) && decide (relative_area < p.max_area) &&
    decide (confidence > p.min_confidence)

/-- Embedding of `ROTATION_ANGLES` from `trash_detector/config.py`. -/
def ROTATION_ANGLES : List ℤ := [90, 180, 270]

/-- Embedding of `ROTATION_PENALTY` from `trash_detector/config.py`. -/
def ROTATION_PENALTY : ℚ := 0.9

namespace YOLOModel

/-- The detection dict built for one raw box by
`YOLOModel._process_detections` (unrotated pass): truncated box, floored
midpoint of the raw coordinates, rotation tag 0. -/
def mkDet0 (r : RawBox) : Det :=
  { className := r.className
    confidence := r.conf
    bbox := (truncQ r.x1, truncQ r.y1, truncQ r.x2, truncQ r.y2)
    center := (halfFloor (r.x1 + r.x2), halfFloor (r.y1 + r.y2))
    rotation := 0
    source := "" }

/-- The acceptance test of the unrotated pass: tracked class, confidence
above the model threshold, and `is_likely_trash` on the raw coordinates
against the frame of height `H` and width `W`. -/
def keepRaw0 (W H : ℕ) (thr : ℚ) (r : RawBox) : Bool :=
  TRASH_CLASSES.contains r.className && decide (r.conf > thr) &&
    is_likely_trash r.className r.conf r.x1 r.y1 r.x2 r.y2 H W

/-- Embedding of `YOLOModel._process_detections`: the nested loop over raw boxes of
the unrotated inference call, appending one detection dict per accepted
raw box. -/
def process_detections (raws : List RawBox) (W H : ℕ) (thr : ℚ) : List Det :=
  raws.foldl (fun acc r => if keepRaw0 W H thr r then acc ++ [mkDet0 r] else acc) []

/-- The detection dict built for one raw box of the pass rotated by
`angle` in `YOLOModel._detect_rotated_objects`: coordinates mapped back
to the original frame, then truncated; confidence multiplied by
`ROTATION_PENALTY`; rotation tag `angle`. -/
def mkRotDet (angle : ℤ) (W H : ℕ) (r : RawBox) : Det :=
  let adj := adjust_rotated_coords r.x1 r.y1 r.x2 r.y2 angle W H
  { className := r.className
    confidence := r.conf * ROTATION_PENALTY
    bbox := (truncQ adj.1, truncQ adj.2.1, truncQ adj.2.2.1, truncQ adj.2.2.2)
    center := (halfFloor (adj.1 + adj.2.2.1), halfFloor (adj.2.1 + adj.2.2.2))
    rotation := angle
    source := "" }

/-- The acceptance test of a rotated pass: tracked class, raw confidence
above the model threshold, and `is_likely_trash` on the *adjusted*
coordinates against the *original* frame (the Python call passes `frame`,
not `rotated_frame`). -/
def keepRawRot (angle : ℤ) (W H : ℕ) (thr : ℚ) (r : RawBox) : Bool :=
  let adj := adjust_rotated_coords r.x1 r.y1 r.x2 r.y2 angle W H
  TRASH_CLASSES.contains r.className && decide (r.conf > thr) &&
    is_likely_trash r.className r.conf adj.1 adj.2.1 adj.2.2.1 adj.2.2.2 H W

/-- The body of one iteration of the angle loop in
`YOLOModel._detect_rotated_objects`.  The per-angle `try/except` is
modelled by the oracle returning `none` for a raised exception: the
`except` clause logs and continues, so the accumulator is unchanged. -/
def processRotAngle (oracle : ℤ → Option (List RawBox)) (W H : ℕ) (thr : ℚ)
    (acc : List Det) (angle : ℤ) : List Det :=
  match oracle angle with
  | none => acc
  | some raws =>
      raws.foldl
        (fun acc2 r => if keepRawRot angle W H thr r then acc2 ++ [mkRotDet angle W H r] else acc2)
        acc

/-- Embedding of `YOLOModel._detect_rotated_objects`: loop over `ROTATION_ANGLES`,
accumulating the surviving mapped-back detections of every rotated pass
into one list. -/
def detect_rotated_objects (oracle : ℤ → Option (List RawBox)) (W H : ℕ) (thr : ℚ) :
    List Det :=
  ROTATION_ANGLES.foldl (processRotAngle oracle W H thr) []

/-- Embedding of `YOLOModel.detect_trash`: the unrotated inference call sits inside
the method's outer `try`, so an exception there (`oracle 0 = none`) is
caught by the outer handler, which returns the empty list for the whole
frame; otherwise the unrotated and rotated passes are concatenated and
deduplicated at the default IoU threshold `0.5`. -/
def detect_trash (oracle : ℤ → Option (List RawBox)) (W H : ℕ) (thr : ℚ) : List Det :=
  match oracle 0 with
  | none => []
  | some raws =>
      remove_duplicate_detections
        (process_detections raws W H thr ++ detect_rotated_objects oracle W H thr) 0.5

end YOLOModel

namespace AdvancedTrashDetector

/-- The edge margin of the final filter in
`AdvancedTrashDetector.detect_trash`:
`min(frame_width, frame_height) * 0.05`. -/
def edgeMargin (W H : ℕ) : ℚ :=
  ((min W H : ℕ) : ℚ) * 0.05

/-- The keep condition of the final edge-proximity filter: the box is
strictly farther than the margin from all four frame edges. -/
def keepAwayFromEdge (W H : ℕ) (d : Det) : Bool :=
  let (x1, y1, x2, y2) := d.bbox
  decide ((x1 : ℚ) > edgeMargin W H) && decide ((y1 : ℚ) > edgeMargin W H) &&
    decide ((x2 : ℚ) < (W : ℚ) - edgeMargin W H) &&
    decide ((y2 : ℚ) < (H : ℚ) - edgeMargin W H)

/-- Embedding of `AdvancedTrashDetector.detect_trash`, with the three strategies'
outputs abstracted as input lists (each strategy is inference/impure
vision code treated as a collaborator): concatenate, deduplicate at the
default IoU threshold `0.5`, then keep only detections away from the
frame edges. -/
def detect_trash (yolo color shape : List Det) (W H : ℕ) : List Det :=
  let filtered := remove_duplicate_detections (yolo ++ color ++ shape) 0.5
  filtered.filter (keepAwayFromEdge W H)

/-- The detection dict built by the color and shape strategies of
`AdvancedTrashDetector` from a contour bounding rectangle `(x, y, w, h)`
(all natural numbers from `cv2.boundingRect`): box
`(x, y, x + w, y + h)`, center `(x + w // 2, y + h // 2)`. -/
def mkContourDet (cls : String) (conf : ℚ) (x y w h : ℕ) (src : String) : Det :=
  { className := cls
    confidence := conf
    bbox := ((x : ℤ), (y : ℤ), ((x + w : ℕ) : ℤ), ((y + h : ℕ) : ℤ))
    center := (((x + w / 2 : ℕ) : ℤ), ((y + h / 2 : ℕ) : ℤ))
    rotation := 0
    source := src }

end AdvancedTrashDetector

/-! ### Specification-side definitions

The following definitions are transcribed from the specification's words
(not from the source) and exist to be compared with the embedded source
functions above. -/

/-- Transcribed from the spec (§4.3): the greedy acceptance test —
a candidate is accepted iff its IoU with every already-accepted detection
of the same class is at most the threshold. -/
def specAccepts (θ : ℚ) (accepted : List Det) (d : Det) : Bool :=
  accepted.all fun e =>
    !(e.className == d.className) || decide (calculate_iou d.bbox e.bbox ≤ θ)

/-- Transcribed from the spec (§4.3): one greedy step — append the
candidate iff it is accepted against the detections accepted so far. -/
def specGreedyStep (θ : ℚ) (accepted : List Det) (d : Det) : List Det :=
  if specAccepts θ accepted d then accepted ++ [d] else accepted

/-- Transcribed from the spec (§4.3): sort by confidence descending with
a stable sort, then greedily accept each candidate whose IoU with every
already-accepted same-class detection is at most the threshold; return
the accepted detections in order. -/
def specGreedyDedup (detections : List Det) (θ : ℚ) : List Det :=
  (sortByConfDesc detections).foldl (specGreedyStep θ) []

/-- Modelled from the spec (§4.1 and the C2 round-trip property): the
geometric rule the image rotation in `rotate_image` (an external
`cv2.rotate` call, not repository code) implies for boxes, with origin at
the top-left, x right, y down.  A 90° clockwise rotation of a `W×H`
frame sends the point `(x, y)` to `(H - y, x)`; 180° sends it to
`(W - x, H - y)`; 270° (counter-clockwise 90°) sends it to `(y, W - x)`.
The box is the min/max envelope of the two mapped corners. -/
def rotate_box_forward (x1 y1 x2 y2 : ℚ) (angle : ℤ) (W H : ℕ) : ℚ × ℚ × ℚ × ℚ :=
  if angle = 90 then
    ((H : ℚ) - y2, x1, (H : ℚ) - y1, x2)
  else if angle = 180 then
    ((W : ℚ) - x2, (H : ℚ) - y2, (W : ℚ) - x1, (H : ℚ) - y1)
  else if angle = 270 then
    (y1, (W : ℚ) - x2, y2, (W : ℚ) - x1)
  else
    (x1, y1, x2, y2)

/-- Transcribed from the spec (§4.2): the policy entry for a class name
is the table entry when the class is present, and the `default` entry
otherwise. -/
def specPolicyFor (class_name : String) : FilterParams :=
  match DETECTION_FILTERS.lookup class_name with
  | some p => p
  | none => ⟨0.0005, 0.2, 0.3⟩

/-- A proper box per the data model's invariant: `x1 < x2` and `y1 < y2`. -/
def properBox (b : ℤ × ℤ × ℤ × ℤ) : Prop :=
  b.1 < b.2.2.1 ∧ b.2.1 < b.2.2.2

/-- A point lies strictly inside a box's interior. -/
def strictlyInside (b : ℤ × ℤ × ℤ × ℤ) (p q : ℚ) : Prop :=
  (b.1 : ℚ) < p ∧ p < (b.2.2.1 : ℚ) ∧ (b.2.1 : ℚ) < q ∧ q < (b.2.2.2 : ℚ)

/-- Area of an axis-aligned box, `(x2 - x1) * (y2 - y1)`. -/
def boxArea (b : ℤ × ℤ × ℤ × ℤ) : ℤ :=
  (b.2.2.1 - b.1) * (b.2.2.2 - b.2.1)

/-- Transcribed from the spec (§4.4 step 2): the detection a rotated pass
at `angle` emits for one raw box, or `none` when the raw box is rejected.
The class must be tracked, the raw confidence must exceed the base
threshold, and the filter policy is evaluated on the mapped-back
coordinates against the original frame's area.  The emitted record has
the mapped-back (truncated) box, the raw confidence multiplied by the
rotation penalty factor `0.9`, and rotation tag `angle`. -/
def specRotDet (W H : ℕ) (thr : ℚ) (angle : ℤ) (r : RawBox) : Option Det :=
  let adj := adjust_rotated_coords r.x1 r.y1 r.x2 r.y2 angle W H
  if r.className ∈ TRASH_CLASSES ∧ thr < r.conf ∧
      is_likely_trash r.className r.conf adj.1 adj.2.1 adj.2.2.1 adj.2.2.2 H W = true then
    some
      { className := r.className
        confidence := r.conf * 0.9
        bbox := (truncQ adj.1, truncQ adj.2.1, truncQ adj.2.2.1, truncQ adj.2.2.2)
        center := (halfFloor (adj.1 + adj.2.2.1), halfFloor (adj.2.1 + adj.2.2.2))
        rotation := angle
        source := "" }
  else none

/-- Transcribed from the spec (§4.4): the whole contribution of the pass
rotated by `angle` — empty when the base model throws for that
orientation, otherwise the accepted raw boxes in order. -/
def specRotPass (oracle : ℤ → Option (List RawBox)) (W H : ℕ) (thr : ℚ) (angle : ℤ) :
    List Det :=
  match oracle angle with
  | none => []
  | some raws => raws.filterMap (specRotDet W H thr angle)

/-- Point update of a model oracle: orientation `a` now behaves as `v`,
every other orientation is unchanged. -/
def updOracle (m : ℤ → Option (List RawBox)) (a : ℤ) (v : Option (List RawBox)) :
    ℤ → Option (List RawBox) :=
  fun b => if b = a then v else m b

/-- A raw box in the 90°-rotated frame of a 640×480 frame whose
mapped-back box is `(100, 100, 200, 200)`: a clear bottle detection. -/
def cexRaw90 : RawBox := ⟨280, 100, 380, 200, 0.9, "bottle"⟩

/-- A concrete base-model oracle for which the unrotated inference call
raises (`none`) while the 90° pass succeeds with one good bottle box. -/
def cexOracle : ℤ → Option (List RawBox) :=
  fun a => if a = 0 then none else if a = 90 then some [cexRaw90] else some []

/-- A concrete base-model oracle that behaves like `cexOracle` except
that the unrotated pass succeeds with no boxes; used to instantiate the
amended per-orientation failure-isolation statement. -/
def okOracle : ℤ → Option (List RawBox) :=
  fun a => if a = 0 then some [] else if a = 90 then some [cexRaw90] else some []

/-- A raw unrotated-model box with fractional coordinates
`(100.6, 100, 201.5, 200)`: it passes every filter, its stored bbox is
`(100, 100, 201, 200)` but its stored center x is
`⌊(100.6 + 201.5) / 2⌋ = 151`, not the bbox midpoint `150`. -/
def cexRawCenter : RawBox := ⟨100.6, 100, 201.5, 200, 0.8, "bottle"⟩

/-! ### Lemmas about the stable sort -/

theorem insertDesc_perm (d : Det) (l : List Det) : (insertDesc d l).Perm (d :: l) := by
  induction l with
  | nil => rfl
  | cons e es ih =>
    unfold insertDesc
    by_cases h : e.confidence > d.confidence
    · rw [if_pos h]
      exact (ih.cons e).trans (List.Perm.swap d e es)
    · rw [if_neg h]

theorem sortByConfDesc_perm (l : List Det) : (sortByConfDesc l).Perm l := by
  induction l with
  | nil => rfl
  | cons d ds ih =>
    exact (insertDesc_perm d (sortByConfDesc ds)).trans (ih.cons d)

theorem insertDesc_pairwise {l : List Det} (d : Det)
    (h : l.Pairwise fun a b => b.confidence ≤ a.confidence) :
    (insertDesc d l).Pairwise fun a b => b.confidence ≤ a.confidence := by
  induction l with
  | nil => simp [insertDesc]
  | cons e es ih =>
    rw [List.pairwise_cons] at h
    unfold insertDesc
    by_cases hc : e.confidence > d.confidence
    · rw [if_pos hc]
      rw [List.pairwise_cons]
      refine ⟨?_, ih h.2⟩
      intro b hb
      rcases List.mem_cons.mp ((insertDesc_perm d es).mem_iff.mp hb) with hb | hb
      · exact le_of_lt (by rw [hb]; exact hc)
      · exact h.1 b hb
    · rw [if_neg hc]
      push_neg at hc
      rw [List.pairwise_cons]
      refine ⟨?_, List.pairwise_cons.mpr h⟩
      intro b hb
      rcases List.mem_cons.mp hb with hb | hb
      · exact hb ▸ hc
      · exact le_trans (h.1 b hb) hc

theorem sortByConfDesc_pairwise (l : List Det) :
    (sortByConfDesc l).Pairwise fun a b => b.confidence ≤ a.confidence := by
  induction l with
  | nil => simp [sortByConfDesc]
  | cons d ds ih => exact insertDesc_pairwise d ih

theorem insertDesc_filter_confid (d : Det) (c : ℚ) (m : List Det) :
    (insertDesc d m).filter (fun e => decide (e.confidence = c)) =
      if d.confidence = c then d :: m.filter (fun e => decide (e.confidence = c))
      else m.filter (fun e => decide (e.confidence = c)) := by
  induction m with
  | nil => by_cases h : d.confidence = c <;> simp [insertDesc, h]
  | cons e es ih =>
    unfold insertDesc
    by_cases hc : e.confidence > d.confidence
    · rw [if_pos hc]
      by_cases hd : d.confidence = c
      · have he : ¬ e.confidence = c := by
          intro h; exact absurd (hd ▸ h ▸ hc) (lt_irrefl _)
        simp [List.filter_cons, he, ih, hd]
      · by_cases he : e.confidence = c <;> simp [List.filter_cons, he, ih, hd]
    · rw [if_neg hc]
      by_cases hd : d.confidence = c <;> simp [List.filter_cons, hd]

theorem sortByConfDesc_stable (l : List Det) (c : ℚ) :
    (sortByConfDesc l).filter (fun e => decide (e.confidence = c)) =
      l.filter (fun e => decide (e.confidence = c)) := by
  induction l with
  | nil => rfl
  | cons d ds ih =>
    show (insertDesc d (sortByConfDesc ds)).filter _ = _
    rw [insertDesc_filter_confid]
    by_cases hd : d.confidence = c <;> simp [List.filter_cons, hd, ih]

theorem sortByConfDesc_of_pairwise {l : List Det}
    (h : l.Pairwise fun a b => b.confidence ≤ a.confidence) :
    sortByConfDesc l = l := by
  induction l with
  | nil => rfl
  | cons d ds ih =>
    rw [List.pairwise_cons] at h
    show insertDesc d (sortByConfDesc ds) = d :: ds
    rw [ih h.2]
    cases ds with
    | nil => rfl
    | cons e es =>
      have : ¬ e.confidence > d.confidence := not_lt.mpr (h.1 e (List.mem_cons_self e es))
      unfold insertDesc
      rw [if_neg this]

/-! ### Lemmas about the greedy acceptance fold -/

/-- Decomposition of the greedy fold: the result extends the accumulator
by a sublist `s` of the processed list, and re-running the fold on `s`
from the same accumulator accepts every element of `s`. -/
theorem foldl_dedupStep_decomp (θ : ℚ) :
    ∀ (l acc : List Det), ∃ s : List Det,
      l.foldl (dedupStep θ) acc = acc ++ s ∧ s.Sublist l ∧
        s.foldl (dedupStep θ) acc = acc ++ s := by
  intro l
  induction l with
  | nil => exact fun acc => ⟨[], by simp⟩
  | cons d l' ih =>
    intro acc
    by_cases h : isDuplicate θ acc d
    · obtain ⟨s, h1, h2, h3⟩ := ih acc
      exact ⟨s, by simpa [List.foldl_cons, dedupStep, h] using h1, h2.cons d, h3⟩
    · obtain ⟨s, h1, h2, h3⟩ := ih (acc ++ [d])
      refine ⟨d :: s, ?_, h2.cons₂ d, ?_⟩
      · simpa [List.foldl_cons, dedupStep, h] using h1
      · simpa [List.foldl_cons, dedupStep, h] using h3

theorem remove_duplicate_detections_sublist (ds : List Det) (θ : ℚ) :
    (remove_duplicate_detections ds θ).Sublist (sortByConfDesc ds) := by
  unfold remove_duplicate_detections
  by_cases h : ds.length ≤ 1
  · rw [if_pos h]
    match ds, h with
    | [], _ => exact List.Sublist.refl _
    | [d], _ => exact List.Sublist.refl _
  · rw [if_neg h]
    obtain ⟨s, h1, h2, -⟩ := foldl_dedupStep_decomp θ (sortByConfDesc ds) []
    rw [h1, List.nil_append]
    exact h2

theorem remove_duplicate_detections_pairwise (ds : List Det) (θ : ℚ) :
    (remove_duplicate_detections ds θ).Pairwise fun a b => b.confidence ≤ a.confidence :=
  (sortByConfDesc_pairwise ds).sublist (remove_duplicate_detections_sublist ds θ)

theorem remove_duplicate_detections_count (ds : List Det) (θ : ℚ) (d : Det) :
    (remove_duplicate_detections ds θ).count d ≤ ds.count d :=
  le_of_le_of_eq ((remove_duplicate_detections_sublist ds θ).count_le d)
    ((sortByConfDesc_perm ds).count_eq d)

theorem remove_duplicate_detections_idem (ds : List Det) (θ : ℚ) :
    remove_duplicate_detections (remove_duplicate_detections ds θ) θ =
      remove_duplicate_detections ds θ := by
  by_cases h : ds.length ≤ 1
  · have hds : remove_duplicate_detections ds θ = ds := by
      unfold remove_duplicate_detections; rw [if_pos h]
    rw [hds]
    unfold remove_duplicate_detections; rw [if_pos h]
  · have hout : remove_duplicate_detections ds θ =
        (sortByConfDesc ds).foldl (dedupStep θ) [] := by
      unfold remove_duplicate_detections; rw [if_neg h]
    obtain ⟨s, h1, -, h3⟩ := foldl_dedupStep_decomp θ (sortByConfDesc ds) []
    rw [List.nil_append] at h1 h3
    rw [hout, h1]
    by_cases hs : s.length ≤ 1
    · unfold remove_duplicate_detections; rw [if_pos hs]
    · unfold remove_duplicate_detections
      rw [if_neg hs, sortByConfDesc_of_pairwise, h3]
      have := remove_duplicate_detections_pairwise ds θ
      rwa [hout, h1] at this

/-! ### The code's duplicate test versus the spec's acceptance test -/

theorem isDuplicate_eq_not_specAccepts (θ : ℚ) (d : Det) (acc : List Det) :
    isDuplicate θ acc d = !specAccepts θ acc d := by
  induction acc with
  | nil => rfl
  | cons e es ih =>
    simp only [isDuplicate, specAccepts, List.any_cons, List.all_cons] at *
    rw [ih]
    by_cases hcls : d.className = e.className
    · have h1 : (d.className == e.className) = true := beq_iff_eq.mpr hcls
      have h2 : (e.className == d.className) = true := beq_iff_eq.mpr hcls.symm
      by_cases hiou : calculate_iou d.bbox e.bbox > θ
      · have h3 : ¬ calculate_iou d.bbox e.bbox ≤ θ := not_le.mpr hiou
        simp [h1, h2, hiou, h3]
      · have h3 : calculate_iou d.bbox e.bbox ≤ θ := not_lt.mp hiou
        simp [h1, h2, hiou, h3]
    · have h1 : (d.className == e.className) = false := beq_eq_false_iff_ne.mpr hcls
      have h2 : (e.className == d.className) = false :=
        beq_eq_false_iff_ne.mpr (Ne.symm hcls)
      simp [h1, h2]

theorem dedupStep_eq_specGreedyStep (θ : ℚ) :
    dedupStep θ = specGreedyStep θ := by
  funext acc d
  unfold dedupStep specGreedyStep
  rw [isDuplicate_eq_not_specAccepts]
  by_cases h : specAccepts θ acc d = true <;> simp [h]

theorem remove_duplicate_detections_eq_specGreedyDedup (ds : List Det) (θ : ℚ) :
    remove_duplicate_detections ds θ = specGreedyDedup ds θ := by
  unfold remove_duplicate_detections specGreedyDedup
  by_cases h : ds.length ≤ 1
  · rw [if_pos h]
    match ds, h with
    | [], _ => rfl
    | [d], _ => rfl
  · rw [if_neg h, dedupStep_eq_specGreedyStep]

/-! ### Survival of a detection with no overlapping same-class rival -/

theorem mem_foldl_dedupStep_of_mem (θ : ℚ) (d : Det) :
    ∀ (l acc : List Det), d ∈ acc → d ∈ l.foldl (dedupStep θ) acc := by
  intro l
  induction l with
  | nil => exact fun acc h => h
  | cons x l' ih =>
    intro acc h
    rw [List.foldl_cons]
    apply ih
    unfold dedupStep
    by_cases hx : isDuplicate θ acc x
    · rwa [if_pos hx]
    · rw [if_neg hx]; exact List.mem_append_left _ h

theorem mem_foldl_dedupStep_of_no_rival (θ : ℚ) (d : Det) :
    ∀ (l acc : List Det), d ∈ l →
      (∀ e ∈ l, e.className = d.className →
        e = d ∨ calculate_iou d.bbox e.bbox ≤ θ) →
      (∀ e ∈ acc, e.className = d.className → calculate_iou d.bbox e.bbox ≤ θ) →
      d ∈ l.foldl (dedupStep θ) acc := by
  intro l
  induction l with
  | nil => intro acc h; exact absurd h (List.not_mem_nil d)
  | cons x l' ih =>
    intro acc hmem hl hacc
    rw [List.foldl_cons]
    by_cases hxd : x = d
    · subst hxd
      have hdup : isDuplicate θ acc x = false := by
        rw [Bool.eq_false_iff]
        intro hdup
        rw [isDuplicate, List.any_eq_true] at hdup
        obtain ⟨e, he, hprop⟩ := hdup
        rw [Bool.and_eq_true, decide_eq_true_eq, beq_iff_eq] at hprop
        exact absurd hprop.1 (not_lt.mpr (hacc e he hprop.2.symm))
      rw [dedupStep, hdup]
      simp only [Bool.false_eq_true, if_false]
      exact mem_foldl_dedupStep_of_mem θ _ l' _
        (List.mem_append_right _ (List.mem_singleton.mpr rfl))
    · have hmem' : d ∈ l' := by
        rcases List.mem_cons.mp hmem with h | h
        · exact absurd h.symm hxd
        · exact h
      apply ih _ hmem' (fun e he => hl e (List.mem_cons_of_mem x he))
      intro e he hcls
      unfold dedupStep at he
      by_cases hx : isDuplicate θ acc x
      · rw [if_pos hx] at he
        exact hacc e he hcls
      · rw [if_neg hx] at he
        rcases List.mem_append.mp he with he | he
        · exact hacc e he hcls
        · have hex : e = x := List.mem_singleton.mp he
          rcases hl x (List.mem_cons_self x l') (by rw [← hex]; exact hcls) with h | h
          · exact absurd h hxd
          · rw [hex]; exact h

theorem mem_remove_duplicate_detections_of_no_rival (θ : ℚ) (d : Det) (ds : List Det)
    (hmem : d ∈ ds)
    (hno : ∀ e ∈ ds, e.className = d.className →
      e = d ∨ calculate_iou d.bbox e.bbox ≤ θ) :
    d ∈ remove_duplicate_detections ds θ := by
  unfold remove_duplicate_detections
  by_cases h : ds.length ≤ 1
  · rwa [if_pos h]
  · rw [if_neg h]
    apply mem_foldl_dedupStep_of_no_rival θ d (sortByConfDesc ds) []
    · exact (sortByConfDesc_perm ds).mem_iff.mpr hmem
    · exact fun e he => hno e ((sortByConfDesc_perm ds).mem_iff.mp he)
    · intro e he
      exact absurd he (List.not_mem_nil e)

theorem both_mem_dedup_pair_of_ne_class (d1 d2 : Det) (θ : ℚ)
    (h : d1.className ≠ d2.className) :
    d1 ∈ remove_duplicate_detections [d1, d2] θ ∧
      d2 ∈ remove_duplicate_detections [d1, d2] θ := by
  constructor
  · apply mem_remove_duplicate_detections_of_no_rival θ d1 [d1, d2] (by simp)
    intro e he hcls
    rcases List.mem_cons.mp he with he | he
    · exact Or.inl he
    · have he2 : e = d2 := List.mem_singleton.mp he
      rw [he2] at hcls
      exact absurd hcls.symm h
  · apply mem_remove_duplicate_detections_of_no_rival θ d2 [d1, d2] (by simp)
    intro e he hcls
    rcases List.mem_cons.mp he with he | he
    · rw [he] at hcls
      exact absurd hcls h
    · exact Or.inl (List.mem_singleton.mp he)

/-- C1: `remove_duplicate_detections` returns exactly the detections
accepted by the spec's greedy procedure: candidates are ordered by
confidence descending by a stable sort (witnessed by the permutation,
pairwise-descending and equal-confidence-filter conjuncts), a candidate
is accepted iff its IoU with every already-accepted same-class detection
is at most the threshold (`specGreedyDedup`), detections of different
classes are never compared — in particular both elements of a
two-element list with distinct classes survive, whatever their boxes —
and the result is in descending-confidence order. -/
theorem remove_duplicate_detections_matches_greedy_spec :
    (∀ (ds : List Det) (θ : ℚ),
        remove_duplicate_detections ds θ = specGreedyDedup ds θ) ∧
    (∀ (ds : List Det) (θ : ℚ),
        (remove_duplicate_detections ds θ).Pairwise
          fun a b => b.confidence ≤ a.confidence) ∧
    (∀ ds : List Det, (sortByConfDesc ds).Perm ds) ∧
    (∀ (ds : List Det) (c : ℚ),
        (sortByConfDesc ds).filter (fun e => decide (e.confidence = c)) =
          ds.filter (fun e => decide (e.confidence = c))) ∧
    (∀ (d1 d2 : Det) (θ : ℚ), d1.className ≠ d2.className →
        d1 ∈ remove_duplicate_detections [d1, d2] θ ∧
          d2 ∈ remove_duplicate_detections [d1, d2] θ) :=
  ⟨remove_duplicate_detections_eq_specGreedyDedup,
   remove_duplicate_detections_pairwise,
   sortByConfDesc_perm,
   sortByConfDesc_stable,
   both_mem_dedup_pair_of_ne_class⟩

/-- Witness for C1 at a concrete input: a cup and a bottle with the very
same box both survive deduplication. -/
theorem remove_duplicate_detections_matches_greedy_spec_witness :
    (⟨"cup", 0.9, (10, 10, 60, 60), (35, 35), 0, ""⟩ : Det) ∈
        remove_duplicate_detections
          [⟨"cup", 0.9, (10, 10, 60, 60), (35, 35), 0, ""⟩,
           ⟨"bottle", 0.8, (10, 10, 60, 60), (35, 35), 0, ""⟩] (1/2) ∧
      (⟨"bottle", 0.8, (10, 10, 60, 60), (35, 35), 0, ""⟩ : Det) ∈
        remove_duplicate_detections
          [⟨"cup", 0.9, (10, 10, 60, 60), (35, 35), 0, ""⟩,
           ⟨"bottle", 0.8, (10, 10, 60, 60), (35, 35), 0, ""⟩] (1/2) :=
  remove_duplicate_detections_matches_greedy_spec.2.2.2.2
    ⟨"cup", 0.9, (10, 10, 60, 60), (35, 35), 0, ""⟩
    ⟨"bottle", 0.8, (10, 10, 60, 60), (35, 35), 0, ""⟩ (1/2) (by decide)

/-- C8: deduplication at the default IoU threshold `0.5` is idempotent. -/
theorem remove_duplicate_detections_idempotent :
    ∀ ds : List Det,
      remove_duplicate_detections (remove_duplicate_detections ds 0.5) 0.5 =
        remove_duplicate_detections ds 0.5 :=
  fun ds => remove_duplicate_detections_idem ds 0.5

/-- C10: deduplication never fabricates or modifies records — every
detection occurs in the output at most as often as in the input (so the
output is a permutation of a sub-multiset of the input and each returned
record, with all its fields, is literally an input record). -/
theorem remove_duplicate_detections_no_fabrication :
    ∀ (ds : List Det) (θ : ℚ) (d : Det),
      (remove_duplicate_detections ds θ).count d ≤ ds.count d :=
  remove_duplicate_detections_count

/-- C7: `calculate_iou` returns `1` on two identical proper boxes;
returns `0` whenever the two boxes' interiors share no point (including
boxes merely touching along an edge); and for a box `b1` fully
containing a proper box `b2` returns `area(b2) / area(b1)`. -/
theorem calculate_iou_spec :
    (∀ b : ℤ × ℤ × ℤ × ℤ, properBox b → calculate_iou b b = 1) ∧
    (∀ b1 b2 : ℤ × ℤ × ℤ × ℤ, properBox b1 → properBox b2 →
      (∀ p q : ℚ, ¬(strictlyInside b1 p q ∧ strictlyInside b2 p q)) →
      calculate_iou b1 b2 = 0) ∧
    (∀ b1 b2 : ℤ × ℤ × ℤ × ℤ, properBox b2 →
      b1.1 ≤ b2.1 → b1.2.1 ≤ b2.2.1 → b2.2.2.1 ≤ b1.2.2.1 → b2.2.2.2 ≤ b1.2.2.2 →
      calculate_iou b1 b2 = (boxArea b2 : ℚ) / (boxArea b1 : ℚ)) := by
  refine ⟨?_, ?_, ?_⟩
  · rintro ⟨x1, y1, x2, y2⟩ ⟨hx, hy⟩
    have hA : (0 : ℚ) < (((x2 - x1) * (y2 - y1) : ℤ) : ℚ) := by
      exact_mod_cast mul_pos (sub_pos.mpr hx) (sub_pos.mpr hy)
    simp only [calculate_iou, max_self, min_self]
    rw [if_neg (by push_neg; exact ⟨hx, hy⟩)]
    simp only [add_sub_cancel_right]
    rw [if_pos hA]
    exact div_self (ne_of_gt hA)
  · rintro ⟨x11, y11, x21, y21⟩ ⟨x12, y12, x22, y22⟩ ⟨hx1, hy1⟩ ⟨hx2, hy2⟩ hdisj
    simp only [properBox] at hx1 hy1 hx2 hy2
    suffices hguard : min x21 x22 ≤ max x11 x12 ∨ min y21 y22 ≤ max y11 y12 by
      simp only [calculate_iou]
      rw [if_pos hguard]
    by_contra hcon
    push_neg at hcon
    obtain ⟨hgx, hgy⟩ := hcon
    have hmx : ((max x11 x12 : ℤ) : ℚ) < ((min x21 x22 : ℤ) : ℚ) := by exact_mod_cast hgx
    have hmy : ((max y11 y12 : ℤ) : ℚ) < ((min y21 y22 : ℤ) : ℚ) := by exact_mod_cast hgy
    apply hdisj ((((max x11 x12 : ℤ) : ℚ) + ((min x21 x22 : ℤ) : ℚ)) / 2)
      ((((max y11 y12 : ℤ) : ℚ) + ((min y21 y22 : ℤ) : ℚ)) / 2)
    have c1 : ((x11 : ℤ) : ℚ) ≤ ((max x11 x12 : ℤ) : ℚ) := by
      exact_mod_cast le_max_left x11 x12
    have c2 : ((x12 : ℤ) : ℚ) ≤ ((max x11 x12 : ℤ) : ℚ) := by
      exact_mod_cast le_max_right x11 x12
    have c3 : ((min x21 x22 : ℤ) : ℚ) ≤ ((x21 : ℤ) : ℚ) := by
      exact_mod_cast min_le_left x21 x22
    have c4 : ((min x21 x22 : ℤ) : ℚ) ≤ ((x22 : ℤ) : ℚ) := by
      exact_mod_cast min_le_right x21 x22
    have c5 : ((y11 : ℤ) : ℚ) ≤ ((max y11 y12 : ℤ) : ℚ) := by
      exact_mod_cast le_max_left y11 y12
    have c6 : ((y12 : ℤ) : ℚ) ≤ ((max y11 y12 : ℤ) : ℚ) := by
      exact_mod_cast le_max_right y11 y12
    have c7 : ((min y21 y22 : ℤ) : ℚ) ≤ ((y21 : ℤ) : ℚ) := by
      exact_mod_cast min_le_left y21 y22
    have c8 : ((min y21 y22 : ℤ) : ℚ) ≤ ((y22 : ℤ) : ℚ) := by
      exact_mod_cast min_le_right y21 y22
    constructor
    · exact ⟨by dsimp only; linarith, by dsimp only; linarith,
        by dsimp only; linarith, by dsimp only; linarith⟩
    · exact ⟨by dsimp only; linarith, by dsimp only; linarith,
        by dsimp only; linarith, by dsimp only; linarith⟩
  · rintro ⟨x11, y11, x21, y21⟩ ⟨x12, y12, x22, y22⟩ ⟨hpx, hpy⟩ hx1 hy1 hx2 hy2
    dsimp only at hpx hpy hx1 hy1 hx2 hy2
    have e1 : max x11 x12 = x12 := max_eq_right hx1
    have e2 : max y11 y12 = y12 := max_eq_right hy1
    have e3 : min x21 x22 = x22 := min_eq_right hx2
    have e4 : min y21 y22 = y22 := min_eq_right hy2
    have harea1 : (0 : ℤ) < (x21 - x11) * (y21 - y11) :=
      mul_pos (by omega) (by omega)
    simp only [calculate_iou, e1, e2, e3, e4]
    rw [if_neg (by push_neg; exact ⟨hpx, hpy⟩)]
    have hunion :
        (((x21 - x11) * (y21 - y11) : ℤ) : ℚ) + ((x22 - x12) * (y22 - y12) : ℤ) -
            ((x22 - x12) * (y22 - y12) : ℤ) =
          (((x21 - x11) * (y21 - y11) : ℤ) : ℚ) := by ring
    rw [hunion, if_pos (by exact_mod_cast harea1)]
    rfl

/-- Witness for C7 at concrete boxes: identical boxes `(0,0,10,10)` give
IoU `1`; the edge-touching boxes `(0,0,10,10)` and `(10,0,20,10)` give
IoU `0`; and `(0,0,10,10)` containing `(2,2,4,4)` gives the area
ratio. -/
theorem calculate_iou_spec_witness :
    calculate_iou (0, 0, 10, 10) (0, 0, 10, 10) = 1 ∧
      calculate_iou (0, 0, 10, 10) (10, 0, 20, 10) = 0 ∧
      calculate_iou (0, 0, 10, 10) (2, 2, 4, 4) =
        (boxArea (2, 2, 4, 4) : ℚ) / (boxArea (0, 0, 10, 10) : ℚ) := by
  refine ⟨calculate_iou_spec.1 (0, 0, 10, 10) (by constructor <;> decide),
    calculate_iou_spec.2.1 (0, 0, 10, 10) (10, 0, 20, 10)
      (by constructor <;> decide) (by constructor <;> decide) ?_,
    calculate_iou_spec.2.2 (0, 0, 10, 10) (2, 2, 4, 4)
      (by constructor <;> decide) (by decide) (by decide) (by decide) (by decide)⟩
  intro p q h
  obtain ⟨h1, h2⟩ := h
  unfold strictlyInside at h1 h2
  obtain ⟨-, hp2, -, -⟩ := h1
  obtain ⟨hp3, -, -, -⟩ := h2
  dsimp only at hp2 hp3
  have : ((10 : ℤ) : ℚ) < ((10 : ℤ) : ℚ) := lt_trans hp3 hp2
  exact absurd this (lt_irrefl _)

/-- C2: for every box and every angle in {90, 180, 270}, mapping the box
forward into the rotated frame's coordinates by the geometric rule the
image rotation implies and then applying `adjust_rotated_coords` recovers
the box exactly (hence within ±1 pixel per coordinate); for any other
angle `adjust_rotated_coords` is the identity. -/
theorem adjust_rotated_coords_round_trip :
    (∀ (x1 y1 x2 y2 : ℚ) (a : ℤ) (W H : ℕ), a ∈ ROTATION_ANGLES →
      adjust_rotated_coords (rotate_box_forward x1 y1 x2 y2 a W H).1
        (rotate_box_forward x1 y1 x2 y2 a W H).2.1
        (rotate_box_forward x1 y1 x2 y2 a W H).2.2.1
        (rotate_box_forward x1 y1 x2 y2 a W H).2.2.2 a W H = (x1, y1, x2, y2)) ∧
    (∀ (x1 y1 x2 y2 : ℚ) (a : ℤ) (W H : ℕ), a ≠ 90 → a ≠ 180 → a ≠ 270 →
      adjust_rotated_coords x1 y1 x2 y2 a W H = (x1, y1, x2, y2)) := by
  constructor
  · intro x1 y1 x2 y2 a W H ha
    simp only [ROTATION_ANGLES, List.mem_cons, List.not_mem_nil, or_false] at ha
    rcases ha with ha | ha | ha <;> subst ha <;>
      simp only [rotate_box_forward, adjust_rotated_coords] <;>
      norm_num
  · intro x1 y1 x2 y2 a W H h90 h180 h270
    simp only [adjust_rotated_coords, if_neg h90, if_neg h180, if_neg h270]

/-- Witness for C2 at a concrete input: box `(100, 100, 200, 200)` in a
640×480 frame survives the 90° round trip exactly, and angle 0 leaves
coordinates untouched. -/
theorem adjust_rotated_coords_round_trip_witness :
    adjust_rotated_coords (rotate_box_forward 100 100 200 200 90 640 480).1
        (rotate_box_forward 100 100 200 200 90 640 480).2.1
        (rotate_box_forward 100 100 200 200 90 640 480).2.2.1
        (rotate_box_forward 100 100 200 200 90 640 480).2.2.2 90 640 480 =
        ((100 : ℚ), (100 : ℚ), (200 : ℚ), (200 : ℚ)) ∧
      adjust_rotated_coords 7 8 9 10 0 640 480 = ((7 : ℚ), (8 : ℚ), (9 : ℚ), (10 : ℚ)) :=
  ⟨adjust_rotated_coords_round_trip.1 100 100 200 200 90 640 480 (by decide),
   adjust_rotated_coords_round_trip.2 7 8 9 10 0 640 480
     (by decide) (by decide) (by decide)⟩

theorem filtersGet_eq_specPolicyFor (c : String) : filtersGet c = specPolicyFor c := by
  unfold filtersGet specPolicyFor
  cases h : DETECTION_FILTERS.lookup c with
  | some p => simp
  | none =>
    simp only [Option.getD_none]
    rfl

/-- C4: the class filter returns `true` iff the relative box area lies
strictly between the policy's area bounds and the confidence strictly
exceeds the policy's confidence floor, where the policy is the table
entry for the class name or the `default` entry when the class is absent
(silent fallback); the function is a pure function of its arguments. -/
theorem is_likely_trash_spec :
    ∀ (class_name : String) (confidence x1 y1 x2 y2 : ℚ) (frameH frameW : ℕ),
      0 < frameH → 0 < frameW →
      (is_likely_trash class_name confidence x1 y1 x2 y2 frameH frameW = true ↔
        ((specPolicyFor class_name).min_area <
            ((x2 - x1) * (y2 - y1)) / ((frameH : ℚ) * (frameW : ℚ)) ∧
          ((x2 - x1) * (y2 - y1)) / ((frameH : ℚ) * (frameW : ℚ)) <
            (specPolicyFor class_name).max_area ∧
          (specPolicyFor class_name).min_confidence < confidence)) := by
  intro class_name confidence x1 y1 x2 y2 frameH frameW _ _
  unfold is_likely_trash
  rw [filtersGet_eq_specPolicyFor]
  simp only [Bool.and_eq_true, decide_eq_true_eq, gt_iff_lt, and_assoc]

/-- Witness for C4 at the spec's scenario: class `bottle`, confidence
`0.8`, box `(100,100)-(200,200)` in a 640×480 frame passes the filter;
an unknown class falls back to the `default` policy and also passes. -/
theorem is_likely_trash_spec_witness :
    is_likely_trash "bottle" 0.8 100 100 200 200 480 640 = true ∧
      is_likely_trash "zebra" 0.8 100 100 200 200 480 640 = true := by
  have hb : specPolicyFor "bottle" = ⟨0.0005, 0.2, 0.3⟩ := by rfl
  have hz : specPolicyFor "zebra" = ⟨0.0005, 0.2, 0.3⟩ := by rfl
  constructor
  · exact (is_likely_trash_spec "bottle" 0.8 100 100 200 200 480 640
      (by norm_num) (by norm_num)).mpr (by rw [hb]; norm_num)
  · exact (is_likely_trash_spec "zebra" 0.8 100 100 200 200 480 640
      (by norm_num) (by norm_num)).mpr (by rw [hz]; norm_num)

/-- C5: in the fusion detector's final edge-proximity filter with margin
`0.05 * min(W, H)`, a deduplicated detection is kept iff its box is
strictly farther than the margin from all four frame edges; a box lying
exactly at the margin from an edge is dropped, and a box at least one
pixel farther than the margin from every edge survives. -/
theorem advanced_edge_filter_spec :
    ∀ (yolo color shape : List Det) (W H : ℕ) (d : Det),
      (d ∈ AdvancedTrashDetector.detect_trash yolo color shape W H ↔
        d ∈ remove_duplicate_detections (yolo ++ color ++ shape) 0.5 ∧
          (AdvancedTrashDetector.edgeMargin W H < (d.bbox.1 : ℚ) ∧
            AdvancedTrashDetector.edgeMargin W H < (d.bbox.2.1 : ℚ) ∧
            (d.bbox.2.2.1 : ℚ) < (W : ℚ) - AdvancedTrashDetector.edgeMargin W H ∧
            (d.bbox.2.2.2 : ℚ) < (H : ℚ) - AdvancedTrashDetector.edgeMargin W H)) ∧
      (((d.bbox.1 : ℚ) = AdvancedTrashDetector.edgeMargin W H) →
        d ∉ AdvancedTrashDetector.detect_trash yolo color shape W H) ∧
      ((AdvancedTrashDetector.edgeMargin W H + 1 ≤ (d.bbox.1 : ℚ) ∧
          AdvancedTrashDetector.edgeMargin W H + 1 ≤ (d.bbox.2.1 : ℚ) ∧
          (d.bbox.2.2.1 : ℚ) ≤ (W : ℚ) - AdvancedTrashDetector.edgeMargin W H - 1 ∧
          (d.bbox.2.2.2 : ℚ) ≤ (H : ℚ) - AdvancedTrashDetector.edgeMargin W H - 1) →
        d ∈ remove_duplicate_detections (yolo ++ color ++ shape) 0.5 →
        d ∈ AdvancedTrashDetector.detect_trash yolo color shape W H) := by
  intro yolo color shape W H d
  have hiff : d ∈ AdvancedTrashDetector.detect_trash yolo color shape W H ↔
      d ∈ remove_duplicate_detections (yolo ++ color ++ shape) 0.5 ∧
        (AdvancedTrashDetector.edgeMargin W H < (d.bbox.1 : ℚ) ∧
          AdvancedTrashDetector.edgeMargin W H < (d.bbox.2.1 : ℚ) ∧
          (d.bbox.2.2.1 : ℚ) < (W : ℚ) - AdvancedTrashDetector.edgeMargin W H ∧
          (d.bbox.2.2.2 : ℚ) < (H : ℚ) - AdvancedTrashDetector.edgeMargin W H) := by
    unfold AdvancedTrashDetector.detect_trash
    rw [List.mem_filter]
    apply and_congr_right
    intro _
    rcases hbb : d.bbox with ⟨u, v, w, z⟩
    simp only [AdvancedTrashDetector.keepAwayFromEdge, hbb, Bool.and_eq_true,
      decide_eq_true_eq, gt_iff_lt, and_assoc]
  refine ⟨hiff, ?_, ?_⟩
  · intro heq hmem
    have := (hiff.mp hmem).2.1
    rw [heq] at this
    exact absurd this (lt_irrefl _)
  · intro hfar hmem
    exact hiff.mpr ⟨hmem, by linarith [hfar.1], by linarith [hfar.2.1],
      by linarith [hfar.2.2.1], by linarith [hfar.2.2.2]⟩

/-- Witness for C5 in a 100×100 frame (margin 5): a cup box
`(6, 6, 94, 94)` — one pixel beyond the margin on every side — survives,
while a bottle box with `x1 = 5` exactly at the margin is dropped. -/
theorem advanced_edge_filter_spec_witness :
    (⟨"cup", 0.9, (6, 6, 94, 94), (50, 50), 0, "yolo"⟩ : Det) ∈
        AdvancedTrashDetector.detect_trash
          [⟨"cup", 0.9, (6, 6, 94, 94), (50, 50), 0, "yolo"⟩,
           ⟨"bottle", 0.8, (5, 10, 50, 50), (27, 30), 0, "color"⟩] [] [] 100 100 ∧
      (⟨"bottle", 0.8, (5, 10, 50, 50), (27, 30), 0, "color"⟩ : Det) ∉
        AdvancedTrashDetector.detect_trash
          [⟨"cup", 0.9, (6, 6, 94, 94), (50, 50), 0, "yolo"⟩,
           ⟨"bottle", 0.8, (5, 10, 50, 50), (27, 30), 0, "color"⟩] [] [] 100 100 := by
  constructor
  · apply (advanced_edge_filter_spec
      [⟨"cup", 0.9, (6, 6, 94, 94), (50, 50), 0, "yolo"⟩,
       ⟨"bottle", 0.8, (5, 10, 50, 50), (27, 30), 0, "color"⟩] [] [] 100 100
      ⟨"cup", 0.9, (6, 6, 94, 94), (50, 50), 0, "yolo"⟩).2.2
    · refine ⟨?_, ?_, ?_, ?_⟩ <;> norm_num [AdvancedTrashDetector.edgeMargin]
    · norm_num [remove_duplicate_detections, sortByConfDesc, insertDesc, dedupStep,
        isDuplicate, calculate_iou]
  · apply (advanced_edge_filter_spec
      [⟨"cup", 0.9, (6, 6, 94, 94), (50, 50), 0, "yolo"⟩,
       ⟨"bottle", 0.8, (5, 10, 50, 50), (27, 30), 0, "color"⟩] [] [] 100 100
      ⟨"bottle", 0.8, (5, 10, 50, 50), (27, 30), 0, "color"⟩).2.1
    norm_num [AdvancedTrashDetector.edgeMargin]

/-! ### The rotated passes versus their specification -/

theorem keepRawRot_iff (angle : ℤ) (W H : ℕ) (thr : ℚ) (r : RawBox) :
    YOLOModel.keepRawRot angle W H thr r = true ↔
      (r.className ∈ TRASH_CLASSES ∧ thr < r.conf ∧
        is_likely_trash r.className r.conf
          (adjust_rotated_coords r.x1 r.y1 r.x2 r.y2 angle W H).1
          (adjust_rotated_coords r.x1 r.y1 r.x2 r.y2 angle W H).2.1
          (adjust_rotated_coords r.x1 r.y1 r.x2 r.y2 angle W H).2.2.1
          (adjust_rotated_coords r.x1 r.y1 r.x2 r.y2 angle W H).2.2.2 H W = true) := by
  unfold YOLOModel.keepRawRot
  simp [Bool.and_eq_true, decide_eq_true_eq, gt_iff_lt, and_assoc]

theorem specRotDet_eq_some (angle : ℤ) (W H : ℕ) (thr : ℚ) (r : RawBox)
    (h : YOLOModel.keepRawRot angle W H thr r = true) :
    specRotDet W H thr angle r = some (YOLOModel.mkRotDet angle W H r) := by
  unfold specRotDet
  rw [if_pos ((keepRawRot_iff angle W H thr r).mp h)]
  rfl

theorem specRotDet_eq_none (angle : ℤ) (W H : ℕ) (thr : ℚ) (r : RawBox)
    (h : YOLOModel.keepRawRot angle W H thr r = false) :
    specRotDet W H thr angle r = none := by
  unfold specRotDet
  rw [if_neg]
  intro hc
  have := (keepRawRot_iff angle W H thr r).mpr hc
  rw [h] at this
  exact Bool.false_ne_true this

theorem rot_fold_eq (angle : ℤ) (W H : ℕ) (thr : ℚ) :
    ∀ (raws : List RawBox) (acc : List Det),
      raws.foldl
          (fun acc2 r =>
            if YOLOModel.keepRawRot angle W H thr r then
              acc2 ++ [YOLOModel.mkRotDet angle W H r]
            else acc2) acc =
        acc ++ raws.filterMap (specRotDet W H thr angle) := by
  intro raws
  induction raws with
  | nil => intro acc; simp
  | cons r rest ih =>
    intro acc
    by_cases h : YOLOModel.keepRawRot angle W H thr r = true
    · rw [List.foldl_cons, if_pos h, ih, List.filterMap_cons,
        specRotDet_eq_some angle W H thr r h, List.append_assoc]
      rfl
    · rw [List.foldl_cons, if_neg h, ih, List.filterMap_cons,
        specRotDet_eq_none angle W H thr r (Bool.eq_false_iff.mpr h)]

theorem processRotAngle_eq (oracle : ℤ → Option (List RawBox)) (W H : ℕ) (thr : ℚ)
    (acc : List Det) (angle : ℤ) :
    YOLOModel.processRotAngle oracle W H thr acc angle =
      acc ++ specRotPass oracle W H thr angle := by
  unfold YOLOModel.processRotAngle specRotPass
  cases oracle angle with
  | none => simp
  | some raws => exact rot_fold_eq angle W H thr raws acc

theorem foldl_processRotAngle_eq (oracle : ℤ → Option (List RawBox)) (W H : ℕ) (thr : ℚ) :
    ∀ (l : List ℤ) (acc : List Det),
      l.foldl (YOLOModel.processRotAngle oracle W H thr) acc =
        acc ++ (l.map (specRotPass oracle W H thr)).flatten := by
  intro l
  induction l with
  | nil => intro acc; simp
  | cons a l' ih =>
    intro acc
    rw [List.foldl_cons, processRotAngle_eq, ih, List.map_cons, List.flatten_cons,
      List.append_assoc]

theorem detect_rotated_objects_eq_spec (oracle : ℤ → Option (List RawBox))
    (W H : ℕ) (thr : ℚ) :
    YOLOModel.detect_rotated_objects oracle W H thr =
      (ROTATION_ANGLES.map (specRotPass oracle W H thr)).flatten := by
  unfold YOLOModel.detect_rotated_objects
  rw [foldl_processRotAngle_eq, List.nil_append]

/-- C6: (i) the rotated passes produce, per angle in {90, 180, 270},
exactly the raw boxes that pass the class/threshold/filter checks — the
relative-area filter evaluated against the original frame (`specRotDet`
passes `H W` of the original frame) — mapped back to original
coordinates, with confidence multiplied by the rotation penalty `0.9` and
rotation tag equal to the angle; and (ii) a rotated-pass detection with
no overlapping same-class rival among all candidates survives into the
final merged, deduplicated list of `detect_trash`. -/
theorem rotated_pass_spec :
    (∀ (oracle : ℤ → Option (List RawBox)) (W H : ℕ) (thr : ℚ),
        YOLOModel.detect_rotated_objects oracle W H thr =
          (ROTATION_ANGLES.map (specRotPass oracle W H thr)).flatten) ∧
    (∀ (oracle : ℤ → Option (List RawBox)) (W H : ℕ) (thr : ℚ) (raws : List RawBox),
        oracle 0 = some raws →
        ∀ d ∈ YOLOModel.detect_rotated_objects oracle W H thr,
          (∀ e ∈ YOLOModel.process_detections raws W H thr ++
              YOLOModel.detect_rotated_objects oracle W H thr,
            e.className = d.className → e = d ∨ calculate_iou d.bbox e.bbox ≤ 0.5) →
          d ∈ YOLOModel.detect_trash oracle W H thr) := by
  constructor
  · exact detect_rotated_objects_eq_spec
  · intro oracle W H thr raws h0 d hd hno
    unfold YOLOModel.detect_trash
    rw [h0]
    exact mem_remove_duplicate_detections_of_no_rival 0.5 d _
      (List.mem_append_right _ hd) hno

/-- Witness for C6: with a base model that sees nothing in the unrotated
640×480 frame and one clear bottle in the 90°-rotated frame, the
penalty-adjusted (confidence `0.81`), mapped-back, rotation-tagged
detection survives into the final deduplicated output of
`detect_trash`. -/
theorem rotated_pass_spec_witness :
    YOLOModel.mkRotDet 90 640 480 cexRaw90 ∈
      YOLOModel.detect_trash okOracle 640 480 0.5 := by
  have hrot : YOLOModel.detect_rotated_objects okOracle 640 480 0.5 =
      [YOLOModel.mkRotDet 90 640 480 cexRaw90] := by
    norm_num [YOLOModel.detect_rotated_objects, ROTATION_ANGLES,
      YOLOModel.processRotAngle, okOracle, cexRaw90, YOLOModel.keepRawRot,
      adjust_rotated_coords, is_likely_trash, filtersGet, DETECTION_FILTERS,
      List.lookup, TRASH_CLASSES]
  have hproc : YOLOModel.process_detections [] 640 480 0.5 = [] := rfl
  apply rotated_pass_spec.2 okOracle 640 480 0.5 [] (by norm_num [okOracle])
    (YOLOModel.mkRotDet 90 640 480 cexRaw90)
    (by rw [hrot]; exact List.mem_singleton.mpr rfl)
  intro e he _
  rw [hproc, hrot, List.nil_append] at he
  exact Or.inl (List.mem_singleton.mp he)

/-- C3 counterexample: a concrete oracle for which the unrotated 0°
inference call throws (`cexOracle 0 = none`) while the 90° pass succeeds
with a clear bottle detection.  The whole frame's `detect_trash` call
returns no detections even though the 90° orientation's contribution is
nonempty — the 0° failure is caught by the outer handler and discards
every orientation, contradicting the claim that a single orientation's
failure never empties the frame's result. -/
theorem detect_trash_orientation_failure_cex :
    YOLOModel.detect_trash cexOracle 640 480 0.5 = [] ∧
      YOLOModel.detect_rotated_objects cexOracle 640 480 0.5 =
        [YOLOModel.mkRotDet 90 640 480 cexRaw90] := by
  constructor
  · simp [YOLOModel.detect_trash, cexOracle]
  · norm_num [YOLOModel.detect_rotated_objects, ROTATION_ANGLES,
      YOLOModel.processRotAngle, cexOracle, cexRaw90, YOLOModel.keepRawRot,
      adjust_rotated_coords, is_likely_trash, filtersGet, DETECTION_FILTERS,
      List.lookup, TRASH_CLASSES]

/-- C3 amended: failure isolation holds only for the rotated
orientations — replacing a throwing rotated pass (90, 180 or 270) by an
empty-result pass leaves `detect_trash` unchanged, so a rotated
orientation's failure contributes an empty set while the other
orientations still reach deduplication; but an exception in the
unrotated 0° pass propagates to the outer handler and the whole call
returns the empty list. -/
theorem detect_trash_failure_isolation_amended :
    (∀ (m : ℤ → Option (List RawBox)) (W H : ℕ) (thr : ℚ),
        m 0 = none → YOLOModel.detect_trash m W H thr = []) ∧
    (∀ (m : ℤ → Option (List RawBox)) (W H : ℕ) (thr : ℚ) (a : ℤ),
        a ∈ ROTATION_ANGLES →
        YOLOModel.detect_trash (updOracle m a none) W H thr =
          YOLOModel.detect_trash (updOracle m a (some [])) W H thr) := by
  constructor
  · intro m W H thr h
    simp [YOLOModel.detect_trash, h]
  · intro m W H thr a ha
    have hmem : a = 90 ∨ a = 180 ∨ a = 270 := by
      simpa [ROTATION_ANGLES] using ha
    have key : YOLOModel.detect_rotated_objects (updOracle m a none) W H thr =
        YOLOModel.detect_rotated_objects (updOracle m a (some [])) W H thr := by
      rcases hmem with h | h | h <;> subst h <;>
        norm_num [YOLOModel.detect_rotated_objects, ROTATION_ANGLES,
          YOLOModel.processRotAngle, updOracle]
    have h0n : updOracle m a none 0 = m 0 := by
      rcases hmem with h | h | h <;> subst h <;> norm_num [updOracle]
    have h0s : updOracle m a (some []) 0 = m 0 := by
      rcases hmem with h | h | h <;> subst h <;> norm_num [updOracle]
    unfold YOLOModel.detect_trash
    rw [h0n, h0s]
    cases hm : m 0 with
    | none => rfl
    | some raws => rw [key]

/-- Witness for C3's amended statement at concrete inputs: with
`okOracle` (0° succeeds empty, 90° sees a bottle), killing the 180° pass
is the same as an empty 180° pass, and an oracle that throws at 0°
yields the empty result. -/
theorem detect_trash_failure_isolation_amended_witness :
    YOLOModel.detect_trash (updOracle okOracle 180 none) 640 480 0.5 =
        YOLOModel.detect_trash (updOracle okOracle 180 (some [])) 640 480 0.5 ∧
      YOLOModel.detect_trash cexOracle 640 480 0.5 = [] :=
  ⟨detect_trash_failure_isolation_amended.2 okOracle 640 480 0.5 180 (by decide),
   detect_trash_failure_isolation_amended.1 cexOracle 640 480 0.5 (by norm_num [cexOracle])⟩

/-! ### The center field of emitted detections -/

theorem truncQ_intCast (n : ℤ) : truncQ (n : ℚ) = n := by
  unfold truncQ
  split_ifs
  · exact Int.floor_intCast n
  · exact Int.ceil_intCast n

theorem halfFloor_intCast (n : ℤ) : halfFloor (n : ℚ) = n / 2 := by
  unfold halfFloor
  rw [show ((2 : ℚ)) = ((2 : ℕ) : ℚ) by norm_num]
  exact Rat.floor_intCast_div_natCast n 2

theorem mem_process_fold (W H : ℕ) (thr : ℚ) :
    ∀ (raws : List RawBox) (acc : List Det) (d : Det),
      d ∈ raws.foldl
          (fun acc r =>
            if YOLOModel.keepRaw0 W H thr r then acc ++ [YOLOModel.mkDet0 r] else acc)
          acc →
        d ∈ acc ∨ ∃ r, r ∈ raws ∧ d = YOLOModel.mkDet0 r := by
  intro raws
  induction raws with
  | nil => intro acc d h; exact Or.inl h
  | cons r rest ih =>
    intro acc d h
    rw [List.foldl_cons] at h
    rcases ih _ d h with hacc | ⟨r', hr', hd⟩
    · by_cases hk : YOLOModel.keepRaw0 W H thr r = true
      · rw [if_pos hk] at hacc
        rcases List.mem_append.mp hacc with hacc | hacc
        · exact Or.inl hacc
        · exact Or.inr ⟨r, List.mem_cons_self r rest, List.mem_singleton.mp hacc⟩
      · rw [if_neg hk] at hacc
        exact Or.inl hacc
    · exact Or.inr ⟨r', List.mem_cons_of_mem r hr', hd⟩

/-- C9 counterexample: the raw unrotated box `(100.6, 100, 201.5, 200)`
(class bottle, confidence `0.8`, 640×480 frame) passes every filter and
is emitted with stored bbox `(100, 100, 201, 200)` and stored center
`(151, 150)`, while the midpoint of the stored integer bbox is
`(150, 150)` — the center field is computed from the pre-truncation
float coordinates and here differs from the stored bbox's midpoint. -/
theorem detection_center_cex :
    (YOLOModel.process_detections [cexRawCenter] 640 480 0.5).map
        (fun d => (d.center,
          ((d.bbox.1 + d.bbox.2.2.1) / 2, (d.bbox.2.1 + d.bbox.2.2.2) / 2))) =
      [(((151 : ℤ), (150 : ℤ)), ((150 : ℤ), (150 : ℤ)))] ∧
      (((151 : ℤ), (150 : ℤ))) ≠ (((150 : ℤ), (150 : ℤ))) := by
  constructor
  · norm_num [YOLOModel.process_detections, YOLOModel.keepRaw0, YOLOModel.mkDet0,
      cexRawCenter, is_likely_trash, filtersGet, DETECTION_FILTERS, List.lookup,
      TRASH_CLASSES, truncQ, halfFloor]
  · decide

/-- C9 amended: every detection the YOLO passes emit is `mkDet0 r`
(unrotated) or `mkRotDet a W H r` (rotated) for some raw box `r`, whose
center is the floor of the half-sum of the pre-truncation coordinates —
not, in general, the midpoint of the stored integer bbox; when the raw
coordinates are whole numbers the two coincide (the stored bbox is then
exactly those integers and the center is their integer midpoint), and the
advanced detector's color/shape strategies always store a center equal to
the midpoint of the stored bbox. -/
theorem detection_center_amended :
    (∀ (raws : List RawBox) (W H : ℕ) (thr : ℚ) (d : Det),
        d ∈ YOLOModel.process_detections raws W H thr →
          ∃ r, r ∈ raws ∧ d = YOLOModel.mkDet0 r) ∧
    (∀ (oracle : ℤ → Option (List RawBox)) (W H : ℕ) (thr : ℚ) (d : Det),
        d ∈ YOLOModel.detect_rotated_objects oracle W H thr →
          ∃ (a : ℤ) (raws : List RawBox) (r : RawBox),
            a ∈ ROTATION_ANGLES ∧ oracle a = some raws ∧ r ∈ raws ∧
              d = YOLOModel.mkRotDet a W H r) ∧
    (∀ r : RawBox, (YOLOModel.mkDet0 r).center =
        (halfFloor (r.x1 + r.x2), halfFloor (r.y1 + r.y2))) ∧
    (∀ (a b c e : ℤ) (conf : ℚ) (cls : String),
        (YOLOModel.mkDet0 ⟨(a : ℚ), (b : ℚ), (c : ℚ), (e : ℚ), conf, cls⟩).bbox =
            (a, b, c, e) ∧
          (YOLOModel.mkDet0 ⟨(a : ℚ), (b : ℚ), (c : ℚ), (e : ℚ), conf, cls⟩).center =
            ((a + c) / 2, (b + e) / 2)) ∧
    (∀ (cls : String) (conf : ℚ) (x y w h : ℕ) (src : String),
        (AdvancedTrashDetector.mkContourDet cls conf x y w h src).center =
          (((AdvancedTrashDetector.mkContourDet cls conf x y w h src).bbox.1 +
              (AdvancedTrashDetector.mkContourDet cls conf x y w h src).bbox.2.2.1) / 2,
            ((AdvancedTrashDetector.mkContourDet cls conf x y w h src).bbox.2.1 +
              (AdvancedTrashDetector.mkContourDet cls conf x y w h src).bbox.2.2.2) / 2)) := by
  refine ⟨?_, ?_, ?_, ?_, ?_⟩
  · intro raws W H thr d hd
    unfold YOLOModel.process_detections at hd
    rcases mem_process_fold W H thr raws [] d hd with h | h
    · exact absurd h (List.not_mem_nil d)
    · exact h
  · intro oracle W H thr d hd
    rw [detect_rotated_objects_eq_spec] at hd
    rw [List.mem_flatten] at hd
    obtain ⟨l, hl, hdl⟩ := hd
    rw [List.mem_map] at hl
    obtain ⟨a, ha, hla⟩ := hl
    subst hla
    unfold specRotPass at hdl
    cases ho : oracle a with
    | none => rw [ho] at hdl; exact absurd hdl (List.not_mem_nil d)
    | some raws =>
      rw [ho] at hdl
      rw [List.mem_filterMap] at hdl
      obtain ⟨r, hr, hsome⟩ := hdl
      refine ⟨a, raws, r, ha, ho, hr, ?_⟩
      simp only [specRotDet] at hsome
      split_ifs at hsome with hc
      exact (Option.some_inj.mp hsome).symm
  · intro r; rfl
  · intro a b c e conf cls
    constructor
    · simp [YOLOModel.mkDet0, truncQ_intCast]
    · show (halfFloor ((a : ℚ) + (c : ℚ)), halfFloor ((b : ℚ) + (e : ℚ))) = _
      rw [← Int.cast_add, ← Int.cast_add, halfFloor_intCast, halfFloor_intCast]
  · intro cls conf x y w h src
    simp only [AdvancedTrashDetector.mkContourDet, Prod.mk.injEq]
    constructor <;> push_cast <;> omega

/-- Witness for C9's amended statement: the counterexample raw box's
emitted detection is `mkDet0 cexRawCenter`; the rotated bottle detection
of `okOracle` is `mkRotDet 90 640 480 cexRaw90`; and a whole-number raw
box `(2, 3, 7, 9)` is stored with bbox `(2, 3, 7, 9)` and center
`(4, 6)`, the bbox midpoint. -/
theorem detection_center_amended_witness :
    (∃ r, r ∈ [cexRawCenter] ∧ YOLOModel.mkDet0 cexRawCenter = YOLOModel.mkDet0 r) ∧
      (∃ (a : ℤ) (raws : List RawBox) (r : RawBox),
        a ∈ ROTATION_ANGLES ∧ okOracle a = some raws ∧ r ∈ raws ∧
          YOLOModel.mkRotDet 90 640 480 cexRaw90 = YOLOModel.mkRotDet a 640 480 r) ∧
      (YOLOModel.mkDet0 ⟨(2 : ℚ), 3, 7, 9, 0.8, "cup"⟩).bbox = (2, 3, 7, 9) ∧
      (YOLOModel.mkDet0 ⟨(2 : ℚ), 3, 7, 9, 0.8, "cup"⟩).center = ((2 + 7) / 2, (3 + 9) / 2) := by
  have hproc : YOLOModel.process_detections [cexRawCenter] 640 480 0.5 =
      [YOLOModel.mkDet0 cexRawCenter] := by
    norm_num [YOLOModel.process_detections, YOLOModel.keepRaw0, cexRawCenter,
      is_likely_trash, filtersGet, DETECTION_FILTERS, List.lookup, TRASH_CLASSES]
  have hrot : YOLOModel.detect_rotated_objects okOracle 640 480 0.5 =
      [YOLOModel.mkRotDet 90 640 480 cexRaw90] := by
    norm_num [YOLOModel.detect_rotated_objects, ROTATION_ANGLES,
      YOLOModel.processRotAngle, okOracle, cexRaw90, YOLOModel.keepRawRot,
      adjust_rotated_coords, is_likely_trash, filtersGet, DETECTION_FILTERS,
      List.lookup, TRASH_CLASSES]
  refine ⟨?_, ?_, ?_, ?_⟩
  · exact detection_center_amended.1 [cexRawCenter] 640 480 0.5
      (YOLOModel.mkDet0 cexRawCenter)
      (by rw [hproc]; exact List.mem_singleton.mpr rfl)
  · exact detection_center_amended.2.1 okOracle 640 480 0.5
      (YOLOModel.mkRotDet 90 640 480 cexRaw90)
      (by rw [hrot]; exact List.mem_singleton.mpr rfl)
  · exact (detection_center_amended.2.2.2.1 2 3 7 9 0.8 "cup").1
  · exact (detection_center_amended.2.2.2.1 2 3 7 9 0.8 "cup").2

end StreetSweep
